import Mathlib

set_option maxRecDepth 4000

/-!
Verification development for `git-checkout-recent`, an interactive
local-branch switcher.  The definitions below are a shallow embedding of
the Rust sources `src/git.rs` and `src/ui.rs`, together with the ranking
and orchestration glue of the program's `main` (modelled from the spec
where the final wiring is not present in the source tree).  The git2 and
terminal backends are external collaborators (spec section 6); their calls
are modelled as fields of an explicit repository model, and all repository
mutation is explicit state passing.
-/

namespace GitCheckoutRecent

/-- Embeds `struct BranchRecord` of `src/git.rs` lines 12-21: one record
per local branch, holding the branch name, tip commit sha, commit
timestamp (seconds since epoch plus UTC offset in minutes), commit
summary, fully qualified reference name, author name, and the
current-branch flag. -/
structure BranchRecord where
  name : String
  commit_sha : String
  time_seconds : Int
  offset_minutes : Int
  summary : String
  ref_name : String
  author_name : String
  is_current_branch : Bool
deriving DecidableEq

/-- Raw tip-commit data returned by the git2 backend for one branch:
`commit.id()`, `commit.time().seconds()`, `commit.time().offset_minutes()`,
`commit.summary()` (absent when the message has no summary line) and
`commit.author().name()` (absent when not valid UTF-8). -/
structure RawCommit where
  id : String
  time_seconds : Int
  offset_minutes : Int
  summary : Option String
  author_name : Option String
deriving DecidableEq

/-- Raw branch handle as observed through git2 in `parse_local_branch`:
`branch.name()` is a fallible query that may also return no name
(`Result<Option<&str>, Error>`, embedded as `Option (Option String)`),
`reference.name()` may be absent, and `reference.peel_to_commit()` may
fail (embedded as `Option RawCommit`). -/
structure RawBranch where
  name : Option (Option String)
  ref_name : Option String
  tip : Option RawCommit
deriving DecidableEq

/-- State of the repository that the checkout transaction can mutate: the
working-directory contents (abstract type `W`) and the HEAD reference. -/
structure RepoState (W : Type) where
  workdir : W
  head : String
deriving DecidableEq

/-- Model of the opened `git2::Repository` handle.  The read-only queries
used by `src/git.rs` and the mutating backend calls used by
`checkout_branch` are fields: `head_detached` is `repo.head_detached()`
(`none` when the query fails), `head_name` is `repo.head()` followed by
`.name()`, `branches` is the local-branch iterator (`none` entries are
per-item iteration errors), `revparse` is `repo.revparse_single`,
`checkoutTree` is `repo.checkout_tree` acting on the working directory
only (it never moves HEAD; it reports an optional error together with the
resulting working-directory contents), and `setHead` reports whether
`repo.set_head` succeeds. -/
structure Repo (W : Type) where
  state_clean : Bool
  head_detached : Option Bool
  head_name : Option (Option String)
  branches : List (Option RawBranch)
  revparse : String → Except String String
  checkoutTree : String → W → Option String × W
  setHead : String → Except String Unit

/-- Embeds `get_current_branch_refname` of `src/git.rs` lines 80-92:
return `none` when HEAD is known to be detached, otherwise the HEAD
reference name when it can be obtained. -/
def get_current_branch_refname {W : Type} (repo : Repo W) : Option String :=
  if repo.head_detached = some true then none
  else
    match repo.head_name with
    | some (some name) => some name
    | _ => none

/-- The HEAD reference name as reported by the backend (`repo.head()`
followed by `.name()`), regardless of whether HEAD is attached; used to
state the current-branch invariant. -/
def headRefName {W : Type} (repo : Repo W) : Option String :=
  match repo.head_name with
  | some (some name) => some name
  | _ => none

/-- Embeds `parse_local_branch` of `src/git.rs` lines 46-78: each fallible
query short-circuits to `none` (the `?`/`.ok()?` chain), and the record is
built only from successfully obtained values.  `is_current_branch`
compares the reference name against the current HEAD reference name. -/
def parse_local_branch (branch : RawBranch) (head_branch_refname : Option String) :
    Option BranchRecord :=
  match branch.name.join with
  | none => none
  | some branch_name =>
    match branch.ref_name with
    | none => none
    | some ref_name =>
      let is_current_branch :=
        match head_branch_refname with
        | some current => ref_name == current
        | none => false
      match branch.tip with
      | none => none
      | some commit =>
        match commit.summary with
        | none => none
        | some summary =>
          match commit.author_name with
          | none => none
          | some author_name =>
            some
              { name := branch_name
                commit_sha := commit.id
                time_seconds := commit.time_seconds
                offset_minutes := commit.offset_minutes
                summary := summary
                ref_name := ref_name
                author_name := author_name
                is_current_branch := is_current_branch }

/-- Embeds `extract_local_branches` of `src/git.rs` lines 94-116: iterate
over the local branches, skip per-item iteration errors (logged and
continued) and branches whose record derivation fails, and collect the
remaining records in iteration order. -/
def extract_local_branches {W : Type} (repo : Repo W) : List BranchRecord :=
  let current_branch_refname := get_current_branch_refname repo
  repo.branches.filterMap fun ob =>
    ob.bind fun b => parse_local_branch b current_branch_refname

/-- Embeds `checkout_branch` of `src/git.rs` lines 118-123 with the repo
mutations passed as explicit state: resolve `record.commit_sha` to a
revision, apply its tree to the working directory, then set HEAD to
`record.ref_name`; each `?` propagates the error of its step and skips
the remaining steps.  Only the final `set_head` step writes `head`. -/
def checkout_branch {W : Type} (repo : Repo W) (record : BranchRecord)
    (st : RepoState W) : Option String × RepoState W :=
  match repo.revparse record.commit_sha with
  | Except.error e => (some e, st)
  | Except.ok treeish =>
    match repo.checkoutTree treeish st.workdir with
    | (some e, w) => (some e, { st with workdir := w })
    | (none, w) =>
      match repo.setHead record.ref_name with
      | Except.error e => (some e, { st with workdir := w })
      | Except.ok _ => (none, { workdir := w, head := record.ref_name })

/-- Embeds `get_table_data_from_branch_records` of `src/ui.rs` lines
76-98: three visual rows per record (a name/commit-info row, a summary
row, a blank separator row).  The relative-time string produced by the
chrono-humanize collaborator in `pretty_format_date` is abstracted as the
`fmt` argument. -/
def get_table_data_from_branch_records (fmt : BranchRecord → String)
    (records : List BranchRecord) : List (List String) × List String :=
  let header := ["Name", "Last Commit"]
  let data := records.flatMap fun r =>
    let name := if r.is_current_branch then "* " ++ r.name else r.name
    let commit_info :=
      (r.commit_sha.take 8) ++ " (" ++ fmt r ++ ") " ++ r.author_name
    [[name, commit_info], ["", r.summary], ["", ""]]
  (data, header)

/-- Embeds `struct BranchTable` of `src/ui.rs` lines 14-19: the table
state (the selected visual row, `none` when nothing is selected), the
rendered rows, the header, and the borrowed record slice. -/
structure BranchTable where
  state : Option Nat
  items : List (List String)
  header : List String
  records : List BranchRecord

namespace BranchTable

/-- Embeds `BranchTable::new` of `src/ui.rs` lines 22-30: derive the table
rows from the records; initially nothing is selected. -/
def new (fmt : BranchRecord → String) (records : List BranchRecord) : BranchTable :=
  let p := get_table_data_from_branch_records fmt records
  { state := none, items := p.1, header := p.2, records := records }

/-- Embeds `BranchTable::init` of `src/ui.rs` lines 32-34: select row 0. -/
def init (t : BranchTable) : BranchTable :=
  { t with state := some 0 }

/-- Embeds `BranchTable::next` of `src/ui.rs` lines 36-48: move the cursor
three visual rows down unless that would reach or pass the end of the
rows; from an empty selection select row 0. -/
def next (t : BranchTable) : BranchTable :=
  let i :=
    match t.state with
    | some i => if t.items.length ≤ i + 3 then i else i + 3
    | none => 0
  { t with state := some i }

/-- Embeds `BranchTable::previous` of `src/ui.rs` lines 50-62: move the
cursor three visual rows up, clamping at row 0; from an empty selection
select row 0. -/
def previous (t : BranchTable) : BranchTable :=
  let i :=
    match t.state with
    | some i => if i < 3 then i else i - 3
    | none => 0
  { t with state := some i }

/-- Embeds `BranchTable::deselect` of `src/ui.rs` lines 64-66. -/
def deselect (t : BranchTable) : BranchTable :=
  { t with state := none }

/-- Embeds `BranchTable::selected_record` of `src/ui.rs` lines 68-73: map
the selected visual row to a record index by dividing by 3 and look it up
with the `Option`-returning `get`. -/
def selected_record (t : BranchTable) : Option BranchRecord :=
  match t.state with
  | some row => t.records[row / 3]?
  | none => none

end BranchTable

/-- Input events consumed by the selection loop of
`render_branch_selection` (`src/ui.rs` lines 141-157): the quit key `q`,
the arrow keys, the confirm key (newline), and any other key (ignored). -/
inductive Key where
  | q
  | down
  | up
  | enter
  | other
deriving DecidableEq

/-- Embeds the input loop of `render_branch_selection` (`src/ui.rs` lines
116-158) over an explicit finite sequence of input events: `q` deselects,
`Down`/`Up` move the cursor, newline breaks out of the loop, and all other
keys are ignored.  The result is `some` of the table at the moment the
loop breaks, and `none` when the event sequence is exhausted with the loop
still running (the real loop would keep blocking for further input). -/
def runLoop (t : BranchTable) : List Key → Option BranchTable
  | [] => none
  | k :: ks =>
    match k with
    | Key.q => runLoop (BranchTable.deselect t) ks
    | Key.down => runLoop (BranchTable.next t) ks
    | Key.up => runLoop (BranchTable.previous t) ks
    | Key.enter => some t
    | Key.other => runLoop t ks

/-- Embeds `render_branch_selection` of `src/ui.rs` lines 100-161: select
row 0, run the input loop, and return the selected record (if any) once
the loop breaks; `none` when the supplied input sequence never breaks the
loop. -/
def render_branch_selection (t : BranchTable) (keys : List Key) :
    Option (Option BranchRecord) :=
  (runLoop (BranchTable.init t) keys).map BranchTable.selected_record

/-- Ranking order used on branch records: `a` comes before `b` when `b`'s
commit time is at most `a`'s (most recent first), the order of the Rust
comparator `|a, b| b.time_seconds.cmp(&a.time_seconds)`. -/
def recentFirst (a b : BranchRecord) : Prop :=
  b.time_seconds ≤ a.time_seconds

instance : DecidableRel recentFirst := fun a b =>
  inferInstanceAs (Decidable (b.time_seconds ≤ a.time_seconds))

instance : IsTotal BranchRecord recentFirst :=
  ⟨fun a b => Int.le_total b.time_seconds a.time_seconds⟩

instance : IsTrans BranchRecord recentFirst :=
  ⟨fun _ _ _ hab hbc => le_trans hbc hab⟩

/-- Stable sort of the record list by commit time, most recent first, the
effect of `records.sort_by(|a, b| b.time_seconds.cmp(&a.time_seconds))`
(a stable sort with the same comparator). -/
def sortRecordsDesc (records : List BranchRecord) : List BranchRecord :=
  List.insertionSort recentFirst records

/-- Modelled from the spec: the display limit N = 50 of spec section 4.2
(the constant lives in the crate's final `main`, which is not among the
source files; `src/main.rs` is a superseded monolithic snapshot, spec
section 9). -/
def MAX_NUM_BRANCHES : Nat := 50

/-- Modelled from the spec (section 4.2), for the same missing `main`:
sort the valid record set by `time_seconds` descending, then truncate to
the first `MAX_NUM_BRANCHES` records; truncation happens after sorting. -/
def rankedList (records : List BranchRecord) : List BranchRecord :=
  (sortRecordsDesc records).take MAX_NUM_BRANCHES

/-- User-facing messages of the run, by intent (spec section 6 notes the
exact wording may vary by implementation). -/
inductive Msg where
  | notClean
  | nothingToDo
  | alreadyOn (name : String)
  | switching (name : String)
  | switched (name : String)
  | checkoutFailed (e : String)
  | remediationHint
deriving DecidableEq

/-- Observable outcome of one program run: the process exit code, the
messages reported in order, the ranked record list handed to the
Selection Engine (empty when the run aborts before listing), the
`(commit_sha, ref_name)` arguments of every Adapter checkout call made,
and the final repository state. -/
structure RunOutcome (W : Type) where
  exitCode : Nat
  messages : List Msg
  listed : List BranchRecord
  checkoutCalls : List (String × String)
  finalRepo : RepoState W
deriving DecidableEq

/-- Modelled from the spec: the crate's final `main` — the function that
wires `git.rs` and `ui.rs` together — is not among the source files
(`src/main.rs` is a superseded monolithic snapshot, spec section 9).
Sequencing per spec sections 2, 4.2, 4.4 and 6: abort with the not-clean
message and exit code 1 before any branch enumeration when the repository
state is not clean; otherwise extract the records, sort descending by
commit time and truncate to 50, run the selection loop over that list,
report "nothing to do" (exit 0) when nothing is selected, short-circuit
with the already-on message (exit 0, no checkout call) when the selected
record is the current branch, and otherwise call `checkout_branch`,
reporting success (exit 0) or the underlying error followed by the
remediation hint (exit 1).  `none` when the input sequence never ends the
selection loop. -/
def mainFlow {W : Type} (fmt : BranchRecord → String) (repo : Repo W)
    (st : RepoState W) (keys : List Key) : Option (RunOutcome W) :=
  if repo.state_clean = false then
    some
      { exitCode := 1, messages := [Msg.notClean], listed := []
        checkoutCalls := [], finalRepo := st }
  else
    match runLoop (BranchTable.init (BranchTable.new fmt
        (rankedList (extract_local_branches repo)))) keys with
    | none => none
    | some t =>
      match BranchTable.selected_record t with
      | none =>
        some
          { exitCode := 0, messages := [Msg.nothingToDo]
            listed := rankedList (extract_local_branches repo)
            checkoutCalls := [], finalRepo := st }
      | some rec =>
        if rec.is_current_branch then
          some
            { exitCode := 0, messages := [Msg.alreadyOn rec.name]
              listed := rankedList (extract_local_branches repo)
              checkoutCalls := [], finalRepo := st }
        else
          match checkout_branch repo rec st with
          | (none, st') =>
            some
              { exitCode := 0
                messages := [Msg.switching rec.name, Msg.switched rec.name]
                listed := rankedList (extract_local_branches repo)
                checkoutCalls := [(rec.commit_sha, rec.ref_name)]
                finalRepo := st' }
          | (some e, st') =>
            some
              { exitCode := 1
                messages := [Msg.switching rec.name, Msg.checkoutFailed e,
                  Msg.remediationHint]
                listed := rankedList (extract_local_branches repo)
                checkoutCalls := [(rec.commit_sha, rec.ref_name)]
                finalRepo := st' }

/-! Concrete fixtures used by witnesses and counterexamples. -/

/-- A trivial relative-time formatter standing in for chrono-humanize. -/
def fmt0 : BranchRecord → String := fun _ => ""

/-- A concrete non-current branch record. -/
def sampleRecord : BranchRecord :=
  { name := "feature"
    commit_sha := "0123456789abcdef0123456789abcdef01234567"
    time_seconds := 100
    offset_minutes := 0
    summary := "add feature"
    ref_name := "refs/heads/feature"
    author_name := "dev"
    is_current_branch := false }

/-- A second concrete record with an older tip commit. -/
def sampleRecord2 : BranchRecord :=
  { name := "main"
    commit_sha := "89abcdef0123456789abcdef0123456789abcdef"
    time_seconds := 50
    offset_minutes := 0
    summary := "initial commit"
    ref_name := "refs/heads/main"
    author_name := "dev"
    is_current_branch := false }

/-- A repository model whose tree-checkout backend call always fails
without touching the working directory (a dirty working tree). -/
def repoTreeFail : Repo Nat :=
  { state_clean := true
    head_detached := some false
    head_name := some (some "refs/heads/main")
    branches := []
    revparse := fun _ => Except.ok "tree"
    checkoutTree := fun _ w => (some "conflict", w)
    setHead := fun _ => Except.ok () }

/-- A concrete repository mutable state. -/
def stNat : RepoState Nat := { workdir := 7, head := "refs/heads/main" }

/-- A one-record table, cursor not yet initialised. -/
def tableOne : BranchTable := BranchTable.new fmt0 [sampleRecord]

/-- A raw branch whose every backend query succeeds (the `main` branch). -/
def rawGood : RawBranch :=
  { name := some (some "main")
    ref_name := some "refs/heads/main"
    tip := some
      { id := "89abcdef0123456789abcdef0123456789abcdef"
        time_seconds := 50
        offset_minutes := 0
        summary := some "initial commit"
        author_name := some "dev" } }

/-- A raw branch whose name is present but not decodable. -/
def rawBad : RawBranch :=
  { name := some none
    ref_name := some "refs/heads/broken"
    tip := some
      { id := "fedcba9876543210fedcba9876543210fedcba98"
        time_seconds := 10
        offset_minutes := 0
        summary := some "broken"
        author_name := some "dev" } }

/-- A raw branch for the non-current `feature` branch, whose record is
`sampleRecord`. -/
def rawFeature : RawBranch :=
  { name := some (some "feature")
    ref_name := some "refs/heads/feature"
    tip := some
      { id := "0123456789abcdef0123456789abcdef01234567"
        time_seconds := 100
        offset_minutes := 0
        summary := some "add feature"
        author_name := some "dev" } }

/-- The record derived from `rawGood` when HEAD points at
`refs/heads/main`. -/
def recMain : BranchRecord :=
  { name := "main"
    commit_sha := "89abcdef0123456789abcdef0123456789abcdef"
    time_seconds := 50
    offset_minutes := 0
    summary := "initial commit"
    ref_name := "refs/heads/main"
    author_name := "dev"
    is_current_branch := true }

/-- A clean repository on branch `main` with one well-formed and one
malformed local branch. -/
def repoWithBranches : Repo Unit :=
  { state_clean := true
    head_detached := some false
    head_name := some (some "refs/heads/main")
    branches := [some rawGood, some rawBad]
    revparse := fun _ => Except.ok "tree"
    checkoutTree := fun _ w => (none, w)
    setHead := fun _ => Except.ok () }

/-- The same repository mid-merge (not in a clean state). -/
def repoDirty : Repo Unit := { repoWithBranches with state_clean := false }

/-- A clean repository with a detached HEAD and one non-current branch
whose tree-checkout backend call fails (a dirty working tree). -/
def repoCheckoutFail : Repo Nat :=
  { state_clean := true
    head_detached := some true
    head_name := none
    branches := [some rawFeature]
    revparse := fun _ => Except.ok "tree"
    checkoutTree := fun _ w => (some "conflict", w)
    setHead := fun _ => Except.ok () }

/-- A concrete trivial repository mutable state. -/
def st0 : RepoState Unit := { workdir := (), head := "refs/heads/main" }

/-- The outcome of running `repoWithBranches` and confirming the current
branch immediately. -/
def outAlready : RunOutcome Unit :=
  { exitCode := 0
    messages := [Msg.alreadyOn "main"]
    listed := [recMain]
    checkoutCalls := []
    finalRepo := st0 }

/-! Helper lemmas. -/

/-- Each record contributes exactly three visual rows to the table data. -/
theorem table_data_length (fmt : BranchRecord → String)
    (records : List BranchRecord) :
    (get_table_data_from_branch_records fmt records).1.length
      = 3 * records.length := by
  induction records with
  | nil => rfl
  | cons r rs ih =>
    simp only [get_table_data_from_branch_records, List.flatMap_cons,
      List.length_append, List.length_cons, List.length_nil] at *
    omega

/-- The rendered row count of a freshly built table. -/
theorem new_items_length (fmt : BranchRecord → String)
    (records : List BranchRecord) :
    (BranchTable.new fmt records).items.length = 3 * records.length :=
  table_data_length fmt records

/-- The selection loop never changes the borrowed record slice. -/
theorem runLoop_records (ks : List Key) (t t' : BranchTable)
    (h : runLoop t ks = some t') : t'.records = t.records := by
  induction ks generalizing t with
  | nil => simp [runLoop] at h
  | cons k ks ih =>
    cases k
    · exact ih (BranchTable.deselect t) h
    · exact ih (BranchTable.next t) h
    · exact ih (BranchTable.previous t) h
    · simp [runLoop] at h
      rw [← h]
    · exact ih t h

/-- Over an empty record slice, `selected_record` is always `none`. -/
theorem selected_record_of_nil (t : BranchTable) (h : t.records = []) :
    BranchTable.selected_record t = none := by
  unfold BranchTable.selected_record
  cases hst : t.state with
  | none => rfl
  | some row => simp [h]

/-! Claim theorems. -/

/-- C1: `checkout_branch` first resolves `record.commit_sha` to a
revision, then applies that revision's tree to the working directory, and
only then updates HEAD to `record.ref_name`; when the tree-checkout step
returns an error, that error is propagated and HEAD is left unchanged
(likewise when revision resolution itself fails). -/
theorem checkout_branch_spec {W : Type} (repo : Repo W)
    (record : BranchRecord) (st : RepoState W) :
    (∀ e, repo.revparse record.commit_sha = Except.error e →
      checkout_branch repo record st = (some e, st))
    ∧ (∀ tr e w, repo.revparse record.commit_sha = Except.ok tr →
      repo.checkoutTree tr st.workdir = (some e, w) →
      checkout_branch repo record st = (some e, { st with workdir := w })
        ∧ (checkout_branch repo record st).2.head = st.head)
    ∧ (∀ tr w, repo.revparse record.commit_sha = Except.ok tr →
      repo.checkoutTree tr st.workdir = (none, w) →
      repo.setHead record.ref_name = Except.ok () →
      checkout_branch repo record st
        = (none, { workdir := w, head := record.ref_name })) := by
  refine ⟨?_, ?_, ?_⟩
  · intro e he
    simp [checkout_branch, he]
  · intro tr e w hrev htree
    constructor <;> simp [checkout_branch, hrev, htree]
  · intro tr w hrev htree hhead
    simp [checkout_branch, hrev, htree, hhead]

/-- Witness for C1 at a concrete repository whose tree checkout fails. -/
theorem checkout_branch_spec_witness :
    repoTreeFail.revparse sampleRecord.commit_sha = Except.ok "tree"
    ∧ repoTreeFail.checkoutTree "tree" stNat.workdir = (some "conflict", stNat.workdir)
    ∧ checkout_branch repoTreeFail sampleRecord stNat = (some "conflict", stNat)
    ∧ (checkout_branch repoTreeFail sampleRecord stNat).2.head = stNat.head := by
  have h := (checkout_branch_spec repoTreeFail sampleRecord stNat).2.1
    "tree" "conflict" stNat.workdir rfl rfl
  exact ⟨rfl, rfl, h.1, h.2⟩

/-- C6: from a header-row cursor position `r` (a multiple of 3 addressing
a valid record) over a non-empty record list, `next` moves the cursor to
`min (r + 3) lastHeaderRow` and `previous` moves it to `r - 3` (truncated
subtraction, i.e. `max (r - 3) 0`), with no wraparound; `next` at the last
header row leaves the cursor unchanged. -/
theorem branch_table_navigation (fmt : BranchRecord → String)
    (records : List BranchRecord) (r : Nat)
    (hne : records ≠ []) (h3 : r % 3 = 0) (hr : r / 3 < records.length) :
    (BranchTable.next { BranchTable.new fmt records with state := some r }).state
      = some (min (r + 3) (3 * (records.length - 1)))
    ∧ (BranchTable.previous
        { BranchTable.new fmt records with state := some r }).state
      = some (r - 3)
    ∧ (r = 3 * (records.length - 1) →
      (BranchTable.next
        { BranchTable.new fmt records with state := some r }).state = some r) := by
  have hlen : ({ BranchTable.new fmt records with state := some r } :
      BranchTable).items.length = 3 * records.length :=
    new_items_length fmt records
  have hn : records.length ≠ 0 := fun h => hne (List.length_eq_zero.mp h)
  refine ⟨?_, ?_, ?_⟩
  · simp only [BranchTable.next, hlen]
    split <;> (rw [Option.some.injEq]; omega)
  · simp only [BranchTable.previous]
    split
    · rw [Option.some.injEq]; omega
    · rfl
  · intro hlast
    simp only [BranchTable.next, hlen]
    split
    · rfl
    · rw [Option.some.injEq]; omega

/-- Witness for C6 on a two-record table with the cursor at the last
header row (row 3). -/
theorem branch_table_navigation_witness :
    ([sampleRecord, sampleRecord2] ≠ ([] : List BranchRecord))
    ∧ 3 % 3 = 0 ∧ 3 / 3 < ([sampleRecord, sampleRecord2] : List BranchRecord).length
    ∧ (BranchTable.next
        { BranchTable.new fmt0 [sampleRecord, sampleRecord2] with state := some 3 }).state
      = some 3
    ∧ (BranchTable.previous
        { BranchTable.new fmt0 [sampleRecord, sampleRecord2] with state := some 3 }).state
      = some 0 := by
  have h := branch_table_navigation fmt0 [sampleRecord, sampleRecord2] 3
    (by simp) (by decide) (by simp)
  refine ⟨by simp, by decide, by simp, ?_, ?_⟩
  · simpa using h.1
  · simpa using h.2.1

/-- C10: on the empty
record list, initialisation still selects row 0, and whatever terminated
run of the selection loop follows, `selected_record` performs an
`Option`-returning lookup that yields `none` — confirming with Enter on an
empty list produces no selection and no out-of-bounds failure. -/
theorem empty_record_safe (fmt : BranchRecord → String) :
    (BranchTable.init (BranchTable.new fmt [])).state = some 0
    ∧ ∀ (ks : List Key) (t' : BranchTable),
        runLoop (BranchTable.init (BranchTable.new fmt [])) ks = some t' →
        BranchTable.selected_record t' = none := by
  refine ⟨rfl, ?_⟩
  intro ks t' h
  exact selected_record_of_nil t' (runLoop_records ks _ t' h)

/-- Witness for C10: the empty-table loop confirmed immediately by Enter
selects nothing. -/
theorem empty_record_safe_witness :
    runLoop (BranchTable.init (BranchTable.new fmt0 [])) [Key.enter]
      = some (BranchTable.init (BranchTable.new fmt0 []))
    ∧ BranchTable.selected_record (BranchTable.init (BranchTable.new fmt0 []))
      = none :=
  ⟨rfl, (empty_record_safe fmt0).2 [Key.enter] _ rfl⟩

/-- C2 counterexample: pressing the quit key does not terminate the
selection loop (the one-event run ends with the loop still waiting for
input), and the cleared state is not terminal either — after quit, a Down
key re-selects row 0 and Enter then yields a selected record. -/
theorem quit_not_terminal_counterexample :
    render_branch_selection tableOne [Key.q] = none
    ∧ render_branch_selection tableOne [Key.q, Key.down, Key.enter]
      = some (some sampleRecord) := by
  constructor <;> rfl

/-- C2 as amended: the quit key clears the selection (state `none`, so
`selected_record` yields `none`) but does not end the loop; the loop
terminates exactly when Enter is consumed; quit immediately followed by
Enter exits with nothing selected, while a navigation key after quit
re-selects row 0. -/
theorem selection_loop_amended :
    (∀ (t : BranchTable) (ks : List Key),
        (runLoop t ks).isSome = true ↔ Key.enter ∈ ks)
    ∧ (∀ t : BranchTable, (BranchTable.deselect t).state = none
        ∧ BranchTable.selected_record (BranchTable.deselect t) = none)
    ∧ (∀ (t : BranchTable) (ks : List Key),
        runLoop t (Key.q :: Key.enter :: ks) = some (BranchTable.deselect t))
    ∧ (∀ t : BranchTable,
        (BranchTable.next (BranchTable.deselect t)).state = some 0
        ∧ (BranchTable.previous (BranchTable.deselect t)).state = some 0) := by
  refine ⟨?_, ?_, ?_, ?_⟩
  · intro t ks
    induction ks generalizing t with
    | nil => simp [runLoop]
    | cons k ks ih =>
      cases k <;> simp [runLoop, ih]
  · intro t
    exact ⟨rfl, rfl⟩
  · intro t ks
    rfl
  · intro t
    exact ⟨rfl, rfl⟩

/-- Witness for C2's amended statement: a quit press followed by Enter
terminates the loop, and the cleared table selects nothing. -/
theorem selection_loop_amended_witness :
    (runLoop tableOne [Key.q, Key.enter]).isSome = true
    ∧ BranchTable.selected_record (BranchTable.deselect tableOne) = none :=
  ⟨(selection_loop_amended.1 tableOne [Key.q, Key.enter]).mpr (by simp),
    (selection_loop_amended.2.1 tableOne).2⟩

/-- Inversion for a successful `parse_local_branch`: every field of the
record comes from a successfully obtained source value, and the
current-branch flag holds exactly when the supplied HEAD reference name
equals the record's reference name. -/
theorem parse_local_branch_some (b : RawBranch) (cur : Option String)
    (rec : BranchRecord) (h : parse_local_branch b cur = some rec) :
    b.name = some (some rec.name)
    ∧ b.ref_name = some rec.ref_name
    ∧ (∃ c, b.tip = some c ∧ rec.commit_sha = c.id
        ∧ rec.time_seconds = c.time_seconds
        ∧ rec.offset_minutes = c.offset_minutes
        ∧ c.summary = some rec.summary
        ∧ c.author_name = some rec.author_name)
    ∧ (rec.is_current_branch = true ↔ cur = some rec.ref_name) := by
  obtain ⟨bname, bref, btip⟩ := b
  cases bname with
  | none => simp [parse_local_branch, Option.join] at h
  | some bn =>
    cases bn with
    | none => simp [parse_local_branch, Option.join] at h
    | some nm =>
      cases bref with
      | none => simp [parse_local_branch, Option.join] at h
      | some rn =>
        cases btip with
        | none => simp [parse_local_branch, Option.join] at h
        | some c =>
          obtain ⟨cid, cts, com, csum, cauth⟩ := c
          cases csum with
          | none => simp [parse_local_branch, Option.join] at h
          | some s =>
            cases cauth with
            | none => simp [parse_local_branch, Option.join] at h
            | some a =>
              simp only [parse_local_branch, Option.join, Option.some_bind,
                id_eq, Option.some.injEq] at h
              rw [← h]
              refine ⟨rfl, rfl, ⟨_, rfl, rfl, rfl, rfl, rfl, rfl⟩, ?_⟩
              cases cur with
              | none => simp
              | some cu =>
                simp only [beq_iff_eq, Option.some.injEq]
                exact eq_comm

/-- `parse_local_branch` fails exactly on the enumerated per-branch
failure conditions. -/
theorem parse_local_branch_none (b : RawBranch) (cur : Option String)
    (h : b.name.join = none ∨ b.ref_name = none ∨ b.tip = none
      ∨ (∃ c, b.tip = some c
          ∧ (c.summary = none ∨ c.author_name = none))) :
    parse_local_branch b cur = none := by
  obtain ⟨bname, bref, btip⟩ := b
  rcases h with h | h | h | ⟨c, hc, h⟩
  · simp only at h
    cases bname with
    | none => rfl
    | some bn =>
      cases bn with
      | none => rfl
      | some nm => simp [Option.join] at h
  · simp only at h
    subst h
    cases bname with
    | none => rfl
    | some bn => cases bn <;> rfl
  · simp only at h
    subst h
    cases bname with
    | none => rfl
    | some bn =>
      cases bn with
      | none => rfl
      | some nm => cases bref <;> rfl
  · simp only at hc
    subst hc
    obtain ⟨cid, cts, com, csum, cauth⟩ := c
    rcases h with h | h <;> simp only at h <;> subst h <;>
      (cases bname with
      | none => rfl
      | some bn =>
        cases bn with
        | none => rfl
        | some nm =>
          cases bref with
          | none => rfl
          | some rn =>
            first
            | rfl
            | (cases csum <;> rfl))

/-- Records in the filter of the current-branch flag are at most one when
reference names are pairwise distinct and the flag tracks a single HEAD
reference name. -/
theorem filter_current_length_le_one (c : Option String)
    (l : List BranchRecord)
    (hdist : l.Pairwise fun a b => a.ref_name ≠ b.ref_name)
    (hiff : ∀ r ∈ l, r.is_current_branch = true ↔ c = some r.ref_name) :
    (l.filter fun r => r.is_current_branch).length ≤ 1 := by
  induction l with
  | nil => simp
  | cons a l ih =>
    rw [List.pairwise_cons] at hdist
    obtain ⟨ha, hl⟩ := hdist
    by_cases hc : a.is_current_branch = true
    · have hca : c = some a.ref_name := (hiff a (by simp)).mp hc
      have hfl : l.filter (fun r => r.is_current_branch) = [] := by
        rw [List.filter_eq_nil_iff]
        intro r hr hrc
        have hcr := (hiff r (by simp [hr])).mp hrc
        exact ha r hr (by
          have := hca.symm.trans hcr
          exact Option.some.inj this)
      simp [List.filter_cons, hc, hfl]
    · simp only [List.filter_cons, hc, if_false]
      exact ih hl fun r hr => hiff r (by simp [hr])

/-- C8: with the detached-HEAD query succeeding, a record's
`is_current_branch` is true iff HEAD is attached and the HEAD reference
name equals that record's `ref_name`; and when reference names are
pairwise distinct (as they are for a real branch enumeration), at most
one record of the produced set has the flag set. -/
theorem current_branch_flag {W : Type} (repo : Repo W) (d : Bool)
    (hd : repo.head_detached = some d) :
    (∀ rec ∈ extract_local_branches repo,
        rec.is_current_branch = true
          ↔ (d = false ∧ headRefName repo = some rec.ref_name))
    ∧ ((extract_local_branches repo).Pairwise
          (fun a b => a.ref_name ≠ b.ref_name) →
        ((extract_local_branches repo).filter
          (fun r => r.is_current_branch)).length ≤ 1) := by
  have hcur : get_current_branch_refname repo
      = if d = true then none else headRefName repo := by
    rw [get_current_branch_refname, headRefName, hd]
    cases d <;> simp
  have hiff : ∀ rec ∈ extract_local_branches repo,
      rec.is_current_branch = true
        ↔ get_current_branch_refname repo = some rec.ref_name := by
    intro rec hrec
    rw [extract_local_branches, List.mem_filterMap] at hrec
    obtain ⟨ob, _, hob⟩ := hrec
    rw [Option.bind_eq_some] at hob
    obtain ⟨b, _, hb⟩ := hob
    exact (parse_local_branch_some b _ rec hb).2.2.2
  constructor
  · intro rec hrec
    rw [hiff rec hrec, hcur]
    cases d <;> simp
  · intro hdist
    exact filter_current_length_le_one _ _ hdist hiff

/-- Witness for C8 on the concrete two-branch repository: the `main`
record is flagged current (HEAD attached at `refs/heads/main`), and the
produced set has at most one current record. -/
theorem current_branch_flag_witness :
    repoWithBranches.head_detached = some false
    ∧ recMain ∈ extract_local_branches repoWithBranches
    ∧ recMain.is_current_branch = true
    ∧ ((extract_local_branches repoWithBranches).filter
        (fun r => r.is_current_branch)).length ≤ 1 := by
  refine ⟨rfl, by decide, ?_, ?_⟩
  · exact ((current_branch_flag repoWithBranches false rfl).1 recMain
      (by decide)).mpr ⟨rfl, rfl⟩
  · exact (current_branch_flag repoWithBranches false rfl).2 (by decide)

/-- C9: record derivation is all-or-nothing skip-and-continue —
`parse_local_branch` returns `none` whenever the branch name cannot be
decoded, the reference name is absent, the tip cannot be resolved, the
commit has no summary, or the author name cannot be decoded; a failing
branch is dropped while the remaining branches are still processed; and
every record that reaches the list has all of its fields taken from
successfully obtained source values. -/
theorem record_derivation_all_or_nothing {W : Type} (repo : Repo W) :
    (∀ (b : RawBranch) (cur : Option String),
        b.name.join = none ∨ b.ref_name = none ∨ b.tip = none
          ∨ (∃ c, b.tip = some c
              ∧ (c.summary = none ∨ c.author_name = none)) →
        parse_local_branch b cur = none)
    ∧ (∀ (bs1 : List (Option RawBranch)) (ob : Option RawBranch)
          (bs2 : List (Option RawBranch)),
        repo.branches = bs1 ++ ob :: bs2 →
        (ob.bind fun b =>
          parse_local_branch b (get_current_branch_refname repo)) = none →
        extract_local_branches repo
          = extract_local_branches { repo with branches := bs1 }
            ++ extract_local_branches { repo with branches := bs2 })
    ∧ (∀ rec ∈ extract_local_branches repo, ∃ b, some b ∈ repo.branches
        ∧ parse_local_branch b (get_current_branch_refname repo) = some rec
        ∧ b.name = some (some rec.name)
        ∧ b.ref_name = some rec.ref_name
        ∧ ∃ c, b.tip = some c ∧ rec.commit_sha = c.id
            ∧ rec.time_seconds = c.time_seconds
            ∧ rec.offset_minutes = c.offset_minutes
            ∧ c.summary = some rec.summary
            ∧ c.author_name = some rec.author_name) := by
  refine ⟨fun b cur h => parse_local_branch_none b cur h, ?_, ?_⟩
  · intro bs1 ob bs2 hbr hnone
    rw [extract_local_branches, hbr, List.filterMap_append,
      List.filterMap_cons]
    rw [extract_local_branches, extract_local_branches]
    simp only [hnone]
    rfl
  · intro rec hrec
    rw [extract_local_branches, List.mem_filterMap] at hrec
    obtain ⟨ob, hmem, hob⟩ := hrec
    rw [Option.bind_eq_some] at hob
    obtain ⟨b, hb, hparse⟩ := hob
    obtain ⟨h1, h2, h3, _⟩ := parse_local_branch_some b _ rec hparse
    exact ⟨b, hb ▸ hmem, hparse, h1, h2, h3⟩

/-- Witness for C9: the undecodable branch parses to nothing, dropping it
splits the enumeration around it, and the surviving record is in the
list. -/
theorem record_derivation_witness :
    parse_local_branch rawBad
        (get_current_branch_refname repoWithBranches) = none
    ∧ extract_local_branches repoWithBranches
        = extract_local_branches
            { repoWithBranches with branches := [some rawGood] }
          ++ extract_local_branches
            { repoWithBranches with branches := ([] : List (Option RawBranch)) }
    ∧ recMain ∈ extract_local_branches repoWithBranches := by
  refine ⟨(record_derivation_all_or_nothing repoWithBranches).1 rawBad _
      (Or.inl rfl),
    (record_derivation_all_or_nothing repoWithBranches).2.1
      [some rawGood] (some rawBad) [] rfl rfl,
    by decide⟩

/-- C4: when the repository is not in a clean state, the run reports the
not-clean message and exits with code 1, with no branches listed, no
checkout call, and the repository untouched — the clean-state check aborts
the run before any branch enumeration, for every input sequence. -/
theorem not_clean_aborts {W : Type} (fmt : BranchRecord → String)
    (repo : Repo W) (st : RepoState W) (keys : List Key)
    (h : repo.state_clean = false) :
    mainFlow fmt repo st keys
      = some { exitCode := 1, messages := [Msg.notClean], listed := [],
               checkoutCalls := [], finalRepo := st } := by
  rw [mainFlow, if_pos h]

/-- Witness for C4 on the concrete mid-merge repository. -/
theorem not_clean_aborts_witness :
    repoDirty.state_clean = false
    ∧ mainFlow fmt0 repoDirty st0 []
      = some { exitCode := 1, messages := [Msg.notClean], listed := [],
               checkoutCalls := [], finalRepo := st0 } :=
  ⟨rfl, not_clean_aborts fmt0 repoDirty st0 [] rfl⟩

/-- C7: when the confirmed record is the current branch, the run reports
the already-on message, makes no checkout call, leaves the repository
untouched, and exits with code 0. -/
theorem current_branch_short_circuit {W : Type} (fmt : BranchRecord → String)
    (repo : Repo W) (st : RepoState W) (keys : List Key)
    (t : BranchTable) (rec : BranchRecord)
    (hclean : repo.state_clean = true)
    (hloop : runLoop (BranchTable.init (BranchTable.new fmt
        (rankedList (extract_local_branches repo)))) keys = some t)
    (hsel : BranchTable.selected_record t = some rec)
    (hcur : rec.is_current_branch = true) :
    mainFlow fmt repo st keys
      = some { exitCode := 0, messages := [Msg.alreadyOn rec.name],
               listed := rankedList (extract_local_branches repo),
               checkoutCalls := [], finalRepo := st } := by
  rw [mainFlow, if_neg (by simp [hclean]), hloop]
  simp only [hsel, hcur, if_true]

/-- Witness for C7: confirming the pre-selected current branch of the
concrete repository. -/
theorem current_branch_short_circuit_witness :
    repoWithBranches.state_clean = true
    ∧ BranchTable.selected_record (BranchTable.init (BranchTable.new fmt0
        (rankedList (extract_local_branches repoWithBranches)))) = some recMain
    ∧ recMain.is_current_branch = true
    ∧ mainFlow fmt0 repoWithBranches st0 [Key.enter]
      = some { exitCode := 0, messages := [Msg.alreadyOn recMain.name],
               listed := rankedList (extract_local_branches repoWithBranches),
               checkoutCalls := [], finalRepo := st0 } := by
  refine ⟨rfl, by decide, rfl, ?_⟩
  exact current_branch_short_circuit fmt0 repoWithBranches st0 [Key.enter]
    _ recMain rfl rfl (by decide) rfl

/-- C5: when the Adapter checkout fails for a confirmed non-current
branch (the tree-checkout backend call errors without modifying the
working directory), the run reports the underlying error followed by the
remediation hint, exits with code 1, and the repository is left exactly
as it was before the attempt. -/
theorem checkout_failure_reported {W : Type} (fmt : BranchRecord → String)
    (repo : Repo W) (st : RepoState W) (keys : List Key)
    (t : BranchTable) (rec : BranchRecord) (tr e : String)
    (hclean : repo.state_clean = true)
    (hloop : runLoop (BranchTable.init (BranchTable.new fmt
        (rankedList (extract_local_branches repo)))) keys = some t)
    (hsel : BranchTable.selected_record t = some rec)
    (hcur : rec.is_current_branch = false)
    (hrev : repo.revparse rec.commit_sha = Except.ok tr)
    (htree : repo.checkoutTree tr st.workdir = (some e, st.workdir)) :
    mainFlow fmt repo st keys
      = some { exitCode := 1,
               messages := [Msg.switching rec.name, Msg.checkoutFailed e,
                 Msg.remediationHint],
               listed := rankedList (extract_local_branches repo),
               checkoutCalls := [(rec.commit_sha, rec.ref_name)],
               finalRepo := st } := by
  have hco : checkout_branch repo rec st = (some e, st) := by
    simp only [checkout_branch, hrev, htree]
  rw [mainFlow, if_neg (by simp [hclean]), hloop]
  simp only [hsel]
  rw [if_neg (by simp [hcur]), hco]

/-- Witness for C5: the detached-HEAD repository with a failing
tree-checkout backend, confirming its single (non-current) branch. -/
theorem checkout_failure_reported_witness :
    repoCheckoutFail.state_clean = true
    ∧ BranchTable.selected_record (BranchTable.init (BranchTable.new fmt0
        (rankedList (extract_local_branches repoCheckoutFail))))
      = some sampleRecord
    ∧ sampleRecord.is_current_branch = false
    ∧ repoCheckoutFail.checkoutTree "tree" stNat.workdir
      = (some "conflict", stNat.workdir)
    ∧ mainFlow fmt0 repoCheckoutFail stNat [Key.enter]
      = some { exitCode := 1,
               messages := [Msg.switching sampleRecord.name,
                 Msg.checkoutFailed "conflict", Msg.remediationHint],
               listed := rankedList (extract_local_branches repoCheckoutFail),
               checkoutCalls := [(sampleRecord.commit_sha, sampleRecord.ref_name)],
               finalRepo := stNat } := by
  refine ⟨rfl, by decide, rfl, rfl, ?_⟩
  exact checkout_failure_reported fmt0 repoCheckoutFail stNat [Key.enter]
    _ sampleRecord "tree" "conflict" rfl rfl (by decide) rfl rfl rfl

/-- C3: the ranked list is the sorted record set truncated to at most 50
records after sorting: its length is `min validRecordCount 50`, it is an
initial segment of a sorted permutation of the valid record set, every
dropped record is no more recent than every kept one, and every run on a
clean repository hands exactly this list to the Selection Engine. -/
theorem ranked_list_spec (records : List BranchRecord) :
    (rankedList records).length = min records.length 50
    ∧ rankedList records = (sortRecordsDesc records).take 50
    ∧ (sortRecordsDesc records).Perm records
    ∧ (∀ a ∈ rankedList records, ∀ b ∈ (sortRecordsDesc records).drop 50,
        b.time_seconds ≤ a.time_seconds)
    ∧ (∀ (W : Type) (fmt : BranchRecord → String) (repo : Repo W)
          (st : RepoState W) (keys : List Key) (out : RunOutcome W),
        repo.state_clean = true → mainFlow fmt repo st keys = some out →
        out.listed = rankedList (extract_local_branches repo)) := by
  refine ⟨?_, rfl, List.perm_insertionSort recentFirst records, ?_, ?_⟩
  · rw [rankedList, MAX_NUM_BRANCHES, List.length_take, sortRecordsDesc,
      List.length_insertionSort]
    omega
  · intro a ha b hb
    have hs : List.Sorted recentFirst (sortRecordsDesc records) :=
      List.sorted_insertionSort recentFirst records
    rw [List.Sorted, ← List.take_append_drop 50 (sortRecordsDesc records),
      List.pairwise_append] at hs
    exact hs.2.2 a ha b hb
  · intro W fmt repo st keys out hclean hout
    rw [mainFlow, if_neg (by simp [hclean])] at hout
    split at hout
    · exact absurd hout (by simp)
    · split at hout
      · injection hout with h2
        rw [← h2]
      · split at hout
        · injection hout with h2
          rw [← h2]
        · split at hout
          · injection hout with h2
            rw [← h2]
          · injection hout with h2
            rw [← h2]

/-- Witness for C3: the one-branch clean repository confirmed at once. -/
theorem ranked_list_spec_witness :
    (rankedList [sampleRecord]).length
      = min ([sampleRecord] : List BranchRecord).length 50
    ∧ repoWithBranches.state_clean = true
    ∧ mainFlow fmt0 repoWithBranches st0 [Key.enter] = some outAlready
    ∧ outAlready.listed
      = rankedList (extract_local_branches repoWithBranches) := by
  have hm : mainFlow fmt0 repoWithBranches st0 [Key.enter] = some outAlready := by
    decide
  exact ⟨(ranked_list_spec [sampleRecord]).1, rfl, hm,
    (ranked_list_spec (extract_local_branches repoWithBranches)).2.2.2.2
      Unit fmt0 repoWithBranches st0 [Key.enter] outAlready rfl hm⟩

end GitCheckoutRecent
